import Mathlib

/-!
Shallow embedding of the fisheye panorama viewer core (projection strategies,
coordinate mapper, camera state machine, rasterizer sampling, label overlay)
over the real numbers, together with theorems settling the specification
claims about it.  Floating-point arithmetic of the source is modelled by `ℝ`.
-/

namespace FullViewer

open Real

/-- The `ProjectionType` enumeration from `types.ts`. -/
inductive ProjectionType
  | rectilinear
  | stereographic
  | equidistant
  | equisolid
deriving DecidableEq

/-- JS `Math.atan2 y x` (angle of the point `(x, y)`), used by the
rectilinear strategy as `Math.atan2(v, 1)`. -/
noncomputable def atan2 (y x : ℝ) : ℝ :=
  if 0 < x then Real.arctan (y / x)
  else if x < 0 ∧ 0 ≤ y then Real.arctan (y / x) + Real.pi
  else if x < 0 ∧ y < 0 then Real.arctan (y / x) - Real.pi
  else if x = 0 ∧ 0 < y then Real.pi / 2
  else if x = 0 ∧ y < 0 then -(Real.pi / 2)
  else 0

namespace StereographicProjection

/-- Embeds `StereographicProjection.viewportToAngles` from `projection.ts`. -/
noncomputable def viewportToAngles (nx ny fov ar : ℝ) : ℝ × ℝ :=
  let adjustedNx := nx * ar
  let r := Real.sqrt (adjustedNx * adjustedNx + ny * ny)
  if r < 0.0001 then (0, 0)
  else
    let maxAngle := fov / 2
    let angle := 2 * Real.arctan (r / (2 * Real.tan (maxAngle / 2)))
    (angle * (adjustedNx / r), angle * (ny / r))

/-- Embeds `StereographicProjection.anglesToViewport` from `projection.ts`. -/
noncomputable def anglesToViewport (theta phi fov ar : ℝ) : ℝ × ℝ :=
  let angle := Real.sqrt (theta * theta + phi * phi)
  if angle < 0.0001 then (0, 0)
  else
    let maxAngle := fov / 2
    let r := 2 * Real.tan (angle / 2) * (2 * Real.tan (maxAngle / 2))
    (r * (theta / angle) / ar, r * (phi / angle))

/-- Embeds `StereographicProjection.getDragVelocity` from `projection.ts`. -/
noncomputable def getDragVelocity (nx ny baseSensitivity : ℝ) : ℝ × ℝ :=
  let r := Real.sqrt (nx * nx + ny * ny)
  let falloff := Real.cos (r * Real.pi / 4)
  (baseSensitivity * falloff, baseSensitivity * falloff)

end StereographicProjection

namespace EquidistantProjection

/-- Embeds `EquidistantProjection.viewportToAngles` from `projection.ts`. -/
noncomputable def viewportToAngles (nx ny fov ar : ℝ) : ℝ × ℝ :=
  let adjustedNx := nx * ar
  let r := Real.sqrt (adjustedNx * adjustedNx + ny * ny)
  if r < 0.0001 then (0, 0)
  else
    let maxRadius := Real.sqrt (ar * ar + 1)
    let angle := r * (fov / 2) / maxRadius
    (angle * (adjustedNx / r), angle * (ny / r))

/-- Embeds `EquidistantProjection.anglesToViewport` from `projection.ts`. -/
noncomputable def anglesToViewport (theta phi fov ar : ℝ) : ℝ × ℝ :=
  let angle := Real.sqrt (theta * theta + phi * phi)
  if angle < 0.0001 then (0, 0)
  else
    let maxRadius := Real.sqrt (ar * ar + 1)
    let r := angle * maxRadius / (fov / 2)
    (r * (theta / angle) / ar, r * (phi / angle))

/-- Embeds `EquidistantProjection.getDragVelocity` from `projection.ts`. -/
noncomputable def getDragVelocity (nx ny baseSensitivity : ℝ) : ℝ × ℝ :=
  let r := Real.sqrt (nx * nx + ny * ny)
  let falloff := 1 - r * 0.15
  (baseSensitivity * max 0.5 falloff, baseSensitivity * max 0.5 falloff)

end EquidistantProjection

namespace EquisolidProjection

/-- Embeds `EquisolidProjection.viewportToAngles` from `projection.ts` (ignores `fov`). -/
noncomputable def viewportToAngles (nx ny _fov ar : ℝ) : ℝ × ℝ :=
  let adjustedNx := nx * ar
  let r := Real.sqrt (adjustedNx * adjustedNx + ny * ny)
  if r < 0.0001 then (0, 0)
  else
    let angle := 2 * Real.arcsin (min (r / 2) 1)
    (angle * (adjustedNx / r), angle * (ny / r))

/-- Embeds `EquisolidProjection.anglesToViewport` from `projection.ts` (ignores `fov`). -/
noncomputable def anglesToViewport (theta phi _fov ar : ℝ) : ℝ × ℝ :=
  let angle := Real.sqrt (theta * theta + phi * phi)
  if angle < 0.0001 then (0, 0)
  else
    let r := 2 * Real.sin (angle / 2)
    (r * (theta / angle) / ar, r * (phi / angle))

/-- Embeds `EquisolidProjection.getDragVelocity` from `projection.ts`. -/
noncomputable def getDragVelocity (nx ny baseSensitivity : ℝ) : ℝ × ℝ :=
  let r := Real.sqrt (nx * nx + ny * ny)
  let falloff := 1 - r * 0.2
  (baseSensitivity * max 0.6 falloff, baseSensitivity * max 0.6 falloff)

end EquisolidProjection

namespace RectilinearProjection

/-- Embeds `RectilinearProjection.viewportToAngles` from `projection.ts`
(the source computes `Math.atan2(nx * ar * Math.tan(fov / 2), 1)`). -/
noncomputable def viewportToAngles (nx ny fov ar : ℝ) : ℝ × ℝ :=
  (atan2 (nx * ar * Real.tan (fov / 2)) 1, Real.arctan (ny * Real.tan (fov / 2)))

/-- Embeds `RectilinearProjection.anglesToViewport` from `projection.ts`. -/
noncomputable def anglesToViewport (theta phi fov ar : ℝ) : ℝ × ℝ :=
  (Real.tan theta / (ar * Real.tan (fov / 2)), Real.tan phi / Real.tan (fov / 2))

/-- Embeds `RectilinearProjection.getDragVelocity` from `projection.ts` (uniform). -/
noncomputable def getDragVelocity (_nx _ny baseSensitivity : ℝ) : ℝ × ℝ :=
  (baseSensitivity, baseSensitivity)

end RectilinearProjection

/-- The strategy registry (`projectionStrategies` + `getProjectionStrategy`)
restricted to the forward mapping: each of the four enum values is bound to
its strategy class. -/
noncomputable def viewportToAngles : ProjectionType → ℝ → ℝ → ℝ → ℝ → ℝ × ℝ
  | .rectilinear => RectilinearProjection.viewportToAngles
  | .stereographic => StereographicProjection.viewportToAngles
  | .equidistant => EquidistantProjection.viewportToAngles
  | .equisolid => EquisolidProjection.viewportToAngles

/-- Strategy dispatch for the inverse mapping. -/
noncomputable def anglesToViewport : ProjectionType → ℝ → ℝ → ℝ → ℝ → ℝ × ℝ
  | .rectilinear => RectilinearProjection.anglesToViewport
  | .stereographic => StereographicProjection.anglesToViewport
  | .equidistant => EquidistantProjection.anglesToViewport
  | .equisolid => EquisolidProjection.anglesToViewport

/-- Strategy dispatch for the drag-velocity falloff. -/
noncomputable def getDragVelocity : ProjectionType → ℝ → ℝ → ℝ → ℝ × ℝ
  | .rectilinear => RectilinearProjection.getDragVelocity
  | .stereographic => StereographicProjection.getDragVelocity
  | .equidistant => EquidistantProjection.getDragVelocity
  | .equisolid => EquisolidProjection.getDragVelocity

namespace SpecTable

/-- Transcription of the spec's forward-formula table (section 4.1) and of
claim C3's wording: radial warp of `r = sqrt((nx·ar)² + ny²)` into an angle,
decomposed as `theta = angle·(nx·ar)/r`, `phi = angle·ny/r`, with `(0,0)`
when `r < 1e-4`; rectilinear is non-radial and computed directly. -/
noncomputable def forward : ProjectionType → ℝ → ℝ → ℝ → ℝ → ℝ × ℝ
  | .rectilinear, nx, ny, fov, ar =>
      (Real.arctan (nx * ar * Real.tan (fov / 2)), Real.arctan (ny * Real.tan (fov / 2)))
  | .stereographic, nx, ny, fov, ar =>
      let r := Real.sqrt ((nx * ar) ^ 2 + ny ^ 2)
      if r < 0.0001 then (0, 0)
      else
        let angle := 2 * Real.arctan (r / (2 * Real.tan (fov / 4)))
        (angle * (nx * ar) / r, angle * ny / r)
  | .equidistant, nx, ny, fov, ar =>
      let r := Real.sqrt ((nx * ar) ^ 2 + ny ^ 2)
      if r < 0.0001 then (0, 0)
      else
        let angle := r * (fov / 2) / Real.sqrt (ar ^ 2 + 1)
        (angle * (nx * ar) / r, angle * ny / r)
  | .equisolid, nx, ny, _fov, ar =>
      let r := Real.sqrt ((nx * ar) ^ 2 + ny ^ 2)
      if r < 0.0001 then (0, 0)
      else
        let angle := 2 * Real.arcsin (min (r / 2) 1)
        (angle * (nx * ar) / r, angle * ny / r)

/-- Transcription of the spec's inverse-radius-formula table (section 4.1):
`angle = sqrt(theta² + phi²)`, `(0,0)` when `angle < 1e-4`, radius by the
table's formula, decomposed back and divided by the aspect ratio. -/
noncomputable def inverse : ProjectionType → ℝ → ℝ → ℝ → ℝ → ℝ × ℝ
  | .rectilinear, theta, phi, fov, ar =>
      (Real.tan theta / (ar * Real.tan (fov / 2)), Real.tan phi / Real.tan (fov / 2))
  | .stereographic, theta, phi, fov, ar =>
      let angle := Real.sqrt (theta ^ 2 + phi ^ 2)
      if angle < 0.0001 then (0, 0)
      else
        let r := 2 * Real.tan (angle / 2) * (2 * Real.tan (fov / 4))
        (r * theta / angle / ar, r * phi / angle)
  | .equidistant, theta, phi, fov, ar =>
      let angle := Real.sqrt (theta ^ 2 + phi ^ 2)
      if angle < 0.0001 then (0, 0)
      else
        let r := angle * Real.sqrt (ar ^ 2 + 1) / (fov / 2)
        (r * theta / angle / ar, r * phi / angle)
  | .equisolid, theta, phi, _fov, ar =>
      let angle := Real.sqrt (theta ^ 2 + phi ^ 2)
      if angle < 0.0001 then (0, 0)
      else
        let r := 2 * Real.sin (angle / 2)
        (r * theta / angle / ar, r * phi / angle)

end SpecTable

/-- C3: for each of the four projection types, `viewportToAngles` computes the
angular magnitude exactly by the table's forward formula (with the `(0,0)`
degenerate branch at `r < 1e-4`), and `anglesToViewport` computes exactly the
table's inverse-radius formula. -/
theorem projection_formulas_match_table (pt : ProjectionType) (nx ny theta phi fov ar : ℝ) :
    viewportToAngles pt nx ny fov ar = SpecTable.forward pt nx ny fov ar ∧
    anglesToViewport pt theta phi fov ar = SpecTable.inverse pt theta phi fov ar := by
  cases pt
  case rectilinear =>
    refine ⟨?_, rfl⟩
    simp only [viewportToAngles, RectilinearProjection.viewportToAngles, SpecTable.forward, atan2]
    rw [if_pos (by norm_num : (0 : ℝ) < 1), div_one]
  case stereographic =>
    constructor
    · simp only [viewportToAngles, StereographicProjection.viewportToAngles, SpecTable.forward]
      rw [show nx * ar * (nx * ar) + ny * ny = (nx * ar) ^ 2 + ny ^ 2 by ring,
        show fov / 2 / 2 = fov / 4 by ring]
      split_ifs with h
      · rfl
      · simp only [Prod.mk.injEq]
        constructor <;> ring
    · simp only [anglesToViewport, StereographicProjection.anglesToViewport, SpecTable.inverse]
      rw [show theta * theta + phi * phi = theta ^ 2 + phi ^ 2 by ring,
        show fov / 2 / 2 = fov / 4 by ring]
      split_ifs with h
      · rfl
      · simp only [Prod.mk.injEq]
        constructor <;> ring
  case equidistant =>
    constructor
    · simp only [viewportToAngles, EquidistantProjection.viewportToAngles, SpecTable.forward]
      rw [show nx * ar * (nx * ar) + ny * ny = (nx * ar) ^ 2 + ny ^ 2 by ring,
        show ar * ar + 1 = ar ^ 2 + 1 by ring]
      split_ifs with h
      · rfl
      · simp only [Prod.mk.injEq]
        constructor <;> ring
    · simp only [anglesToViewport, EquidistantProjection.anglesToViewport, SpecTable.inverse]
      rw [show theta * theta + phi * phi = theta ^ 2 + phi ^ 2 by ring,
        show ar * ar + 1 = ar ^ 2 + 1 by ring]
      split_ifs with h
      · rfl
      · simp only [Prod.mk.injEq]
        constructor <;> ring
  case equisolid =>
    constructor
    · simp only [viewportToAngles, EquisolidProjection.viewportToAngles, SpecTable.forward]
      rw [show nx * ar * (nx * ar) + ny * ny = (nx * ar) ^ 2 + ny ^ 2 by ring]
      split_ifs with h
      · rfl
      · simp only [Prod.mk.injEq]
        constructor <;> ring
    · simp only [anglesToViewport, EquisolidProjection.anglesToViewport, SpecTable.inverse]
      rw [show theta * theta + phi * phi = theta ^ 2 + phi ^ 2 by ring]
      split_ifs with h
      · rfl
      · simp only [Prod.mk.injEq]
        constructor <;> ring

/-- First loop of `normalizeAngle` from `projection.ts`:
`while (angle > Math.PI) angle -= 2 * Math.PI`. -/
noncomputable def wrapDown (angle : ℝ) : ℝ :=
  if h : Real.pi < angle then wrapDown (angle - 2 * Real.pi) else angle
termination_by (Int.ceil ((angle - Real.pi) / (2 * Real.pi))).toNat
decreasing_by
  have hpi := Real.pi_pos
  have h2 : (0 : ℝ) < 2 * Real.pi := by linarith
  have hq : (angle - 2 * Real.pi - Real.pi) / (2 * Real.pi)
      = (angle - Real.pi) / (2 * Real.pi) - 1 := by
    field_simp
    ring
  rw [hq, Int.ceil_sub_one]
  have hpos : 0 < Int.ceil ((angle - Real.pi) / (2 * Real.pi)) :=
    Int.ceil_pos.mpr (div_pos (by linarith) h2)
  rw [Int.toNat_lt_toNat hpos]
  omega

/-- Second loop of `normalizeAngle` from `projection.ts`:
`while (angle < -Math.PI) angle += 2 * Math.PI`. -/
noncomputable def wrapUp (angle : ℝ) : ℝ :=
  if h : angle < -Real.pi then wrapUp (angle + 2 * Real.pi) else angle
termination_by (Int.ceil ((-Real.pi - angle) / (2 * Real.pi))).toNat
decreasing_by
  have hpi := Real.pi_pos
  have h2 : (0 : ℝ) < 2 * Real.pi := by linarith
  have hq : (-Real.pi - (angle + 2 * Real.pi)) / (2 * Real.pi)
      = (-Real.pi - angle) / (2 * Real.pi) - 1 := by
    field_simp
    ring
  rw [hq, Int.ceil_sub_one]
  have hpos : 0 < Int.ceil ((-Real.pi - angle) / (2 * Real.pi)) :=
    Int.ceil_pos.mpr (div_pos (by linarith) h2)
  rw [Int.toNat_lt_toNat hpos]
  omega

/-- Embeds `normalizeAngle` from `projection.ts`: wrap into `[-PI, PI]` by repeated
`±2·PI` steps (both while-loops in source order). -/
noncomputable def normalizeAngle (angle : ℝ) : ℝ :=
  wrapUp (wrapDown angle)

theorem wrapDown_eq (angle : ℝ) :
    wrapDown angle = if Real.pi < angle then wrapDown (angle - 2 * Real.pi) else angle := by
  rw [wrapDown]
  simp

theorem wrapUp_eq (angle : ℝ) :
    wrapUp angle = if angle < -Real.pi then wrapUp (angle + 2 * Real.pi) else angle := by
  rw [wrapUp]
  simp

/-- On angles already inside `[-PI, PI]` both loops exit immediately. -/
theorem normalizeAngle_eq_self {angle : ℝ} (h1 : -Real.pi ≤ angle) (h2 : angle ≤ Real.pi) :
    normalizeAngle angle = angle := by
  unfold normalizeAngle
  rw [wrapDown_eq, if_neg (by linarith), wrapUp_eq, if_neg (by linarith)]

/-- Embeds `clamp` from `projection.ts`: `Math.max(min, Math.min(max, value))`. -/
noncomputable def clamp (value lo hi : ℝ) : ℝ :=
  max lo (min hi value)

/-- Embeds `degToRad` from `projection.ts`. -/
noncomputable def degToRad (degrees : ℝ) : ℝ :=
  degrees * (Real.pi / 180)

/-- Embeds `radToDeg` from `projection.ts`. -/
noncomputable def radToDeg (radians : ℝ) : ℝ :=
  radians * (180 / Real.pi)

/-- Embeds `projectToSource` from `projection.ts`: viewport pixel to source-image
sample coordinate (the two inline longitude wrap loops are `normalizeAngle`). -/
noncomputable def projectToSource (x y width height imageWidth imageHeight yaw pitch zoom fov : ℝ)
    (projectionType : ProjectionType) : ℝ × ℝ :=
  let nx := 2 * x / width - 1
  let ny := 2 * y / height - 1
  let aspectRatio := width / height
  let zoomedNx := nx / zoom
  let zoomedNy := ny / zoom
  let a := viewportToAngles projectionType zoomedNx zoomedNy fov aspectRatio
  let lon := normalizeAngle (a.1 + yaw)
  let lat := max (-(Real.pi / 2)) (min (Real.pi / 2) (a.2 + pitch))
  ((lon + Real.pi) / (2 * Real.pi) * imageWidth, (lat + Real.pi / 2) / Real.pi * imageHeight)

/-- Steps 1-5 of `projectToViewport` from `projection.ts`: source pixel to
spherical coordinates, inverse camera rotation, `theta` normalization, and the
strategy's `anglesToViewport`, before the visibility gates. -/
noncomputable def viewportNormCoords (srcX srcY imageWidth imageHeight width height yaw pitch fov : ℝ)
    (projectionType : ProjectionType) : ℝ × ℝ :=
  let lon := srcX / imageWidth * (2 * Real.pi) - Real.pi
  let lat := srcY / imageHeight * Real.pi - Real.pi / 2
  let theta := normalizeAngle (lon - yaw)
  let phi := lat - pitch
  anglesToViewport projectionType theta phi fov (width / height)

/-- Embeds `projectToViewport` from `projection.ts`: the two visibility gates (angular
overscan at `1.2` before zoom, then `100` pixel slack after mapping to pixels)
around `viewportNormCoords`. -/
noncomputable def projectToViewport (srcX srcY imageWidth imageHeight width height yaw pitch zoom fov : ℝ)
    (projectionType : ProjectionType) : Option (ℝ × ℝ) :=
  let nc := viewportNormCoords srcX srcY imageWidth imageHeight width height yaw pitch fov projectionType
  if 1.2 < |nc.1| ∨ 1.2 < |nc.2| then none
  else
    let x := (nc.1 * zoom + 1) / 2 * width
    let y := (nc.2 * zoom + 1) / 2 * height
    if x < -100 ∨ width + 100 < x ∨ y < -100 ∨ height + 100 < y then none
    else some (x, y)

/-- C4: `projectToViewport` returns `none` exactly when the pre-zoom angular
gate (`|nx| > 1.2` or `|ny| > 1.2`) or the pixel-space gate (final pixel more
than 100px outside the viewport rectangle on some side) triggers, and hence
every `some (x, y)` lies within the 100px-padded viewport rectangle. -/
theorem projectToViewport_visibility_gates
    (srcX srcY imageWidth imageHeight width height yaw pitch zoom fov : ℝ)
    (pt : ProjectionType) :
    (projectToViewport srcX srcY imageWidth imageHeight width height yaw pitch zoom fov pt = none ↔
      (1.2 < |(viewportNormCoords srcX srcY imageWidth imageHeight width height yaw pitch fov pt).1| ∨
       1.2 < |(viewportNormCoords srcX srcY imageWidth imageHeight width height yaw pitch fov pt).2| ∨
       ((viewportNormCoords srcX srcY imageWidth imageHeight width height yaw pitch fov pt).1 * zoom + 1) / 2 * width < -100 ∨
       width + 100 < ((viewportNormCoords srcX srcY imageWidth imageHeight width height yaw pitch fov pt).1 * zoom + 1) / 2 * width ∨
       ((viewportNormCoords srcX srcY imageWidth imageHeight width height yaw pitch fov pt).2 * zoom + 1) / 2 * height < -100 ∨
       height + 100 < ((viewportNormCoords srcX srcY imageWidth imageHeight width height yaw pitch fov pt).2 * zoom + 1) / 2 * height)) ∧
    (∀ p : ℝ × ℝ,
      projectToViewport srcX srcY imageWidth imageHeight width height yaw pitch zoom fov pt = some p →
      -100 ≤ p.1 ∧ p.1 ≤ width + 100 ∧ -100 ≤ p.2 ∧ p.2 ≤ height + 100) := by
  simp only [projectToViewport]
  split_ifs with h1 h2
  · refine ⟨⟨fun _ => ?_, fun _ => rfl⟩, fun p hp => by cases hp⟩
    tauto
  · refine ⟨⟨fun _ => ?_, fun _ => rfl⟩, fun p hp => by cases hp⟩
    tauto
  · push_neg at h1 h2
    constructor
    · constructor
      · intro hc
        cases hc
      · intro hc
        rcases hc with h | h | h | h | h | h
        · exact absurd h (not_lt.mpr h1.1)
        · exact absurd h (not_lt.mpr h1.2)
        · exact absurd h (not_lt.mpr h2.1)
        · exact absurd h (not_lt.mpr h2.2.1)
        · exact absurd h (not_lt.mpr h2.2.2.1)
        · exact absurd h (not_lt.mpr h2.2.2.2)
    · intro p hp
      injection hp with h
      subst h
      exact ⟨h2.1, h2.2.1, h2.2.2.1, h2.2.2.2⟩

/-- At `(nx, ny) = (1, 0)`, `ar = 1`, `fov = 4·arctan(1/2)` the stereographic
forward mapping yields the angle pair `(π/2, 0)`. -/
theorem stereographic_forward_at_one :
    StereographicProjection.viewportToAngles 1 0 (4 * Real.arctan (1 / 2)) 1 = (Real.pi / 2, 0) := by
  simp only [StereographicProjection.viewportToAngles]
  rw [show (1 : ℝ) * 1 * (1 * 1) + 0 * 0 = 1 by ring, Real.sqrt_one,
    if_neg (by norm_num : ¬((1 : ℝ) < 0.0001)),
    show (4 * Real.arctan (1 / 2)) / 2 / 2 = Real.arctan (1 / 2) by ring,
    Real.tan_arctan]
  have h1 : (1 : ℝ) / (2 * (1 / 2)) = 1 := by norm_num
  rw [h1, Real.arctan_one]
  simp only [Prod.mk.injEq]
  constructor <;> ring

/-- Applying the stereographic inverse mapping to that angle pair gives
`(2, 0)`, twice the original viewport coordinate. -/
theorem stereographic_inverse_at_one :
    StereographicProjection.anglesToViewport (Real.pi / 2) 0 (4 * Real.arctan (1 / 2)) 1 = (2, 0) := by
  have hpi3 := Real.pi_gt_three
  simp only [StereographicProjection.anglesToViewport]
  rw [show Real.pi / 2 * (Real.pi / 2) + 0 * 0 = (Real.pi / 2) ^ 2 by ring,
    Real.sqrt_sq (by positivity),
    if_neg (by norm_num; linarith : ¬(Real.pi / 2 < 0.0001)),
    show Real.pi / 2 / 2 = Real.pi / 4 by ring, Real.tan_pi_div_four,
    show (4 * Real.arctan (1 / 2)) / 2 / 2 = Real.arctan (1 / 2) by ring,
    Real.tan_arctan]
  have hne : Real.pi / 2 ≠ 0 := by positivity
  rw [div_self hne]
  simp only [Prod.mk.injEq]
  norm_num

/-- C1: the round-trip law fails on the code.  For the stereographic
projection at `(nx, ny) = (1, 0)` (radius `1 ≥ 1e-4`), aspect ratio `1` and
`fov = 4·arctan(1/2) ∈ (0, π)`, composing `anglesToViewport` after
`viewportToAngles` returns `(2, 0)`, not the original `(1, 0)`: the coded
stereographic inverse radius `2·tan(angle/2)·2·tan(fov/4)` carries a stray
factor of 2 relative to the forward formula `angle = 2·atan(r/(2·tan(fov/4)))`,
whose inverse is `r = tan(angle/2)·2·tan(fov/4)`.  The claim (and the spec's
round-trip law) is the evident intent; the code is the slip. -/
theorem stereographic_roundtrip_fails :
    StereographicProjection.anglesToViewport
      (StereographicProjection.viewportToAngles 1 0 (4 * Real.arctan (1 / 2)) 1).1
      (StereographicProjection.viewportToAngles 1 0 (4 * Real.arctan (1 / 2)) 1).2
      (4 * Real.arctan (1 / 2)) 1 = (2, 0) ∧
    ((2 : ℝ), (0 : ℝ)) ≠ (1, 0) ∧
    0 < 4 * Real.arctan (1 / 2) ∧ 4 * Real.arctan (1 / 2) < Real.pi := by
  refine ⟨?_, by norm_num, ?_, ?_⟩
  · rw [stereographic_forward_at_one]
    exact stereographic_inverse_at_one
  · have h := Real.arctan_strictMono (show (0 : ℝ) < 1 / 2 by norm_num)
    rw [Real.arctan_zero] at h
    linarith
  · have h := Real.arctan_strictMono (show (1 : ℝ) / 2 < 1 by norm_num)
    rw [Real.arctan_one] at h
    linarith

namespace CONSTRAINTS

/-- Embeds `CONSTRAINTS.MIN_CANVAS_SIZE` from `types.ts`. -/
def MIN_CANVAS_SIZE : ℕ := 100

/-- Embeds `CONSTRAINTS.MIN_IMAGE_WIDTH` from `types.ts`. -/
def MIN_IMAGE_WIDTH : ℕ := 512

/-- Embeds `CONSTRAINTS.MIN_IMAGE_HEIGHT` from `types.ts`. -/
def MIN_IMAGE_HEIGHT : ℕ := 256

/-- Embeds `CONSTRAINTS.MAX_IMAGE_WIDTH` from `types.ts`. -/
def MAX_IMAGE_WIDTH : ℕ := 8192

/-- Embeds `CONSTRAINTS.MAX_IMAGE_HEIGHT` from `types.ts`. -/
def MAX_IMAGE_HEIGHT : ℕ := 4096

/-- Embeds `CONSTRAINTS.MIN_PITCH` from `types.ts`. -/
noncomputable def MIN_PITCH : ℝ := -90

/-- Embeds `CONSTRAINTS.MAX_PITCH` from `types.ts`. -/
noncomputable def MAX_PITCH : ℝ := 90

end CONSTRAINTS

/-- Embeds `ViewState` from `types.ts`. -/
structure ViewState where
  yaw : ℝ
  pitch : ℝ
  zoom : ℝ
  isDragging : Bool

/-- The mutable per-instance fields of `FishEyePanoramaRenderer` relevant to
the claims: the camera `ViewState`, the active image (by its dimensions), the
cached full-resolution source buffer (by its dimensions), the canvas
dimensions and the dirty flag. -/
structure RendererState where
  state : ViewState
  image : Option (ℕ × ℕ)
  sourceData : Option (ℕ × ℕ)
  canvasWidth : ℝ
  canvasHeight : ℝ
  isDirty : Bool

/-- Embeds `FishEyePanoramaRenderer.getState`: a read-only snapshot of the camera. -/
def getState (r : RendererState) : ViewState :=
  r.state

/-- Embeds `FishEyePanoramaRenderer.setState`: partial update of yaw/pitch/zoom.
The source stores the yaw field raw, clamps pitch to `[MIN_PITCH, MAX_PITCH]`
and zoom to `[minZoom, maxZoom]`, then marks dirty. -/
noncomputable def setState (r : RendererState) (yawVal pitchVal zoomVal : Option ℝ)
    (minZoom maxZoom : ℝ) : RendererState :=
  let s1 := match yawVal with
    | some v => { r.state with yaw := v }
    | none => r.state
  let s2 := match pitchVal with
    | some v => { s1 with pitch := clamp v CONSTRAINTS.MIN_PITCH CONSTRAINTS.MAX_PITCH }
    | none => s1
  let s3 := match zoomVal with
    | some v => { s2 with zoom := clamp v minZoom maxZoom }
    | none => s2
  { r with state := s3, isDirty := true }

/-- Embeds `FishEyePanoramaRenderer.handleMouseMove`: while dragging, subtract the
drag velocity (evaluated at the viewport center `(0,0)`) times the pointer
delta, clamp pitch, normalize yaw, mark dirty. -/
noncomputable def handleMouseMove (pt : ProjectionType) (sensitivity : ℝ) (r : RendererState)
    (dx dy : ℝ) : RendererState :=
  if r.state.isDragging = false then r
  else
    let velocity := getDragVelocity pt 0 0 sensitivity
    let yaw1 := r.state.yaw - dx * velocity.1
    let pitch1 := clamp (r.state.pitch - dy * velocity.2) CONSTRAINTS.MIN_PITCH CONSTRAINTS.MAX_PITCH
    { r with
      state := { r.state with yaw := radToDeg (normalizeAngle (degToRad yaw1)), pitch := pitch1 }
      isDirty := true }

/-- Embeds `FishEyePanoramaRenderer.handleWheel`: step zoom by `±0.1`, clamped. -/
noncomputable def handleWheel (r : RendererState) (minZoom maxZoom deltaY : ℝ) : RendererState :=
  let zoomDelta := if 0 < deltaY then (-0.1 : ℝ) else 0.1
  { r with
    state := { r.state with zoom := clamp (r.state.zoom + zoomDelta) minZoom maxZoom }
    isDirty := true }

/-- Embeds `FishEyePanoramaRenderer.handleKeyDown`: arrow keys step yaw by `∓5`
(renormalized) and pitch by `±5` (clamped), when the keyboard is enabled. -/
noncomputable def handleKeyDown (r : RendererState) (enableKeyboard : Bool) (key : String) :
    RendererState :=
  if enableKeyboard = false then r
  else
    let step : ℝ := 5
    let upd : Option ViewState :=
      if key = "ArrowLeft" then some { r.state with yaw := r.state.yaw - step }
      else if key = "ArrowRight" then some { r.state with yaw := r.state.yaw + step }
      else if key = "ArrowUp" then
        some { r.state with pitch := min CONSTRAINTS.MAX_PITCH (r.state.pitch + step) }
      else if key = "ArrowDown" then
        some { r.state with pitch := max CONSTRAINTS.MIN_PITCH (r.state.pitch - step) }
      else none
    match upd with
    | none => r
    | some s =>
      { r with
        state := { s with yaw := radToDeg (normalizeAngle (degToRad s.yaw)) }
        isDirty := true }

/-- Embeds `FishEyePanoramaRenderer.resize`: reject synchronously below the minimum
canvas size, otherwise update the canvas dimensions and mark dirty. -/
noncomputable def resize (r : RendererState) (width height : ℝ) : RendererState × Option String :=
  if width < (CONSTRAINTS.MIN_CANVAS_SIZE : ℝ) ∨ height < (CONSTRAINTS.MIN_CANVAS_SIZE : ℝ) then
    (r, some "Canvas too small")
  else
    ({ r with canvasWidth := width, canvasHeight := height, isDirty := true }, none)

/-- Outcome of a `loadImage` call. -/
inductive LoadOutcome
  | tooSmall
  | tooLarge
  | ok
  | loadFailed
deriving DecidableEq

/-- Embeds `FishEyePanoramaRenderer.loadImage` at its decode boundary: `none` models
`onerror` (transport/decode failure, rejected with no mutation), `some (w, h)`
models `onload` with the decoded dimensions, validated against `CONSTRAINTS`
before the image is installed and the frame marked dirty (the subsequent
render pass that fills the source cache is modelled separately). -/
noncomputable def loadImageResult (r : RendererState) (decoded : Option (ℕ × ℕ)) :
    RendererState × LoadOutcome :=
  match decoded with
  | none => (r, .loadFailed)
  | some (w, h) =>
    if w < CONSTRAINTS.MIN_IMAGE_WIDTH ∨ h < CONSTRAINTS.MIN_IMAGE_HEIGHT then (r, .tooSmall)
    else if w > CONSTRAINTS.MAX_IMAGE_WIDTH ∨ h > CONSTRAINTS.MAX_IMAGE_HEIGHT then (r, .tooLarge)
    else ({ r with image := some (w, h), isDirty := true }, .ok)

/-- A concrete renderer state as built by the constructor with default config
(yaw 0, pitch 0, zoom 1, not dragging, no image yet) on an 800×600 canvas. -/
noncomputable def exampleState : RendererState :=
  ⟨⟨0, 0, 1, false⟩, none, none, 800, 600, true⟩

/-- C2: the yaw invariant fails on the code.  `setState` stores the yaw field
raw, without the normalization that the drag-move and key-down paths apply, so
`setState({yaw: 500})` makes `getState` report yaw `500`, outside
`[-180, 180)`.  The claim (backed by the code's own `ViewState` documentation
of yaw as "-180 to 180") is the intent; the code is the slip. -/
theorem setState_yaw_escapes_range :
    (getState (setState exampleState (some 500) none none 0.5 3)).yaw = 500 ∧
    ¬(-180 ≤ (getState (setState exampleState (some 500) none none 0.5 3)).yaw ∧
      (getState (setState exampleState (some 500) none none 0.5 3)).yaw < 180) := by
  have h : (getState (setState exampleState (some 500) none none 0.5 3)).yaw = 500 := rfl
  refine ⟨h, ?_⟩
  rw [h]
  intro hc
  have := hc.2
  norm_num at this

/-- C9: mutation-path errors are atomic.  A `resize` rejected for being below
the minimum canvas size returns the renderer state unchanged (canvas
dimensions, camera state, cached buffer and all), and a `loadImage` whose
decoded image fails dimension validation or fails to load leaves the active
image, the cached source data and the camera state exactly as they were. -/
theorem mutation_errors_leave_state_unchanged (r : RendererState) :
    (∀ width height : ℝ, (resize r width height).2.isSome → (resize r width height).1 = r) ∧
    (∀ decoded : Option (ℕ × ℕ), (loadImageResult r decoded).2 ≠ LoadOutcome.ok →
      (loadImageResult r decoded).1 = r) := by
  constructor
  · intro width height hsome
    unfold resize at hsome ⊢
    split_ifs at hsome ⊢ with hc
    · rfl
    · simp at hsome
  · intro decoded hne
    rcases decoded with _ | ⟨w, h⟩
    · rfl
    · simp only [loadImageResult] at hne ⊢
      split_ifs at hne ⊢ with hc1 hc2
      · rfl
      · rfl
      · exact absurd rfl hne

/-- Every strategy's falloff factor is `1` at the viewport center, so the drag
velocity there is exactly `(s, s)`. -/
theorem getDragVelocity_center (pt : ProjectionType) (sens : ℝ) :
    getDragVelocity pt 0 0 sens = (sens, sens) := by
  cases pt
  case rectilinear => rfl
  case stereographic =>
    simp only [getDragVelocity, StereographicProjection.getDragVelocity]
    rw [show (0 : ℝ) * 0 + 0 * 0 = 0 by ring, Real.sqrt_zero,
      show (0 : ℝ) * Real.pi / 4 = 0 by ring, Real.cos_zero, mul_one]
  case equidistant =>
    simp only [getDragVelocity, EquidistantProjection.getDragVelocity]
    rw [show (0 : ℝ) * 0 + 0 * 0 = 0 by ring, Real.sqrt_zero,
      show (1 : ℝ) - 0 * 0.15 = 1 by norm_num,
      max_eq_right (by norm_num : (0.5 : ℝ) ≤ 1), mul_one]
  case equisolid =>
    simp only [getDragVelocity, EquisolidProjection.getDragVelocity]
    rw [show (0 : ℝ) * 0 + 0 * 0 = 0 by ring, Real.sqrt_zero,
      show (1 : ℝ) - 0 * 0.2 = 1 by norm_num,
      max_eq_right (by norm_num : (0.6 : ℝ) ≤ 1), mul_one]

/-- Degree-angle normalization is the identity on `[-180, 180]`. -/
theorem normalize_deg_id (v : ℝ) (h1 : -180 ≤ v) (h2 : v ≤ 180) :
    radToDeg (normalizeAngle (degToRad v)) = v := by
  have hpi := Real.pi_pos
  have hd1 : -Real.pi ≤ degToRad v := by
    unfold degToRad
    nlinarith
  have hd2 : degToRad v ≤ Real.pi := by
    unfold degToRad
    nlinarith
  rw [normalizeAngle_eq_self hd1 hd2]
  unfold radToDeg degToRad
  have := Real.pi_ne_zero
  field_simp

/-- C10: for every projection strategy and base sensitivity `s`, the drag
velocity at the viewport center `(0, 0)` is exactly `(s, s)`, and since the
drag-move handler always evaluates the velocity at `(0, 0)`, a drag of
`(dx, dy)` (landing within the yaw/pitch ranges) changes yaw by `-dx·s` and
pitch by `-dy·s`, identically under all four projection types. -/
theorem drag_uniform_across_projections (sens : ℝ) (pt : ProjectionType) :
    getDragVelocity pt 0 0 sens = (sens, sens) ∧
    ∀ (r : RendererState) (dx dy : ℝ),
      r.state.isDragging = true →
      -180 ≤ r.state.yaw - dx * sens → r.state.yaw - dx * sens ≤ 180 →
      -90 ≤ r.state.pitch - dy * sens → r.state.pitch - dy * sens ≤ 90 →
      (handleMouseMove pt sens r dx dy).state.yaw = r.state.yaw - dx * sens ∧
      (handleMouseMove pt sens r dx dy).state.pitch = r.state.pitch - dy * sens ∧
      ∀ pt' : ProjectionType, handleMouseMove pt' sens r dx dy = handleMouseMove pt sens r dx dy := by
  refine ⟨getDragVelocity_center pt sens, ?_⟩
  intro r dx dy hdrag hy1 hy2 hp1 hp2
  have hmm : ∀ q : ProjectionType, handleMouseMove q sens r dx dy =
      { r with
        state := { r.state with
          yaw := radToDeg (normalizeAngle (degToRad (r.state.yaw - dx * sens)))
          pitch := clamp (r.state.pitch - dy * sens) CONSTRAINTS.MIN_PITCH CONSTRAINTS.MAX_PITCH }
        isDirty := true } := by
    intro q
    unfold handleMouseMove
    rw [if_neg (by simp [hdrag]), getDragVelocity_center q sens]
  have hclamp : clamp (r.state.pitch - dy * sens) CONSTRAINTS.MIN_PITCH CONSTRAINTS.MAX_PITCH =
      r.state.pitch - dy * sens := by
    unfold clamp CONSTRAINTS.MIN_PITCH CONSTRAINTS.MAX_PITCH
    rw [min_eq_right hp2, max_eq_right hp1]
  refine ⟨?_, ?_, ?_⟩
  · rw [hmm pt]
    exact normalize_deg_id _ hy1 hy2
  · rw [hmm pt]
    exact hclamp
  · intro pt'
    rw [hmm pt', hmm pt]

/-- C6 counterexample: at decoded dimensions 100×5000 the height exceeds the
4096 maximum, yet the code reports the too-small error (the too-small check
runs first), so "rejects with too-large exactly when width > 8192 or
height > 4096" is false as stated. -/
theorem loadImage_tooLarge_not_iff :
    ¬((loadImageResult exampleState (some (100, 5000))).2 = LoadOutcome.tooLarge ↔
      ((100 : ℕ) > 8192 ∨ (5000 : ℕ) > 4096)) := by
  intro hc
  have hs : (loadImageResult exampleState (some (100, 5000))).2 = LoadOutcome.tooSmall := by
    norm_num [loadImageResult, CONSTRAINTS.MIN_IMAGE_WIDTH, CONSTRAINTS.MIN_IMAGE_HEIGHT]
  have h2 := hc.mpr (Or.inr (by norm_num))
  rw [hs] at h2
  exact LoadOutcome.noConfusion h2

/-- C6 (amended): the too-small rejection happens exactly when width < 512 or
height < 256; the too-large rejection happens exactly when width > 8192 or
height > 4096 *and* the image is not already too small (the too-small check
takes precedence); the four boundary cases behave as listed. -/
theorem loadImage_validation_thresholds (r : RendererState) (w h : ℕ) :
    ((loadImageResult r (some (w, h))).2 = LoadOutcome.tooSmall ↔ (w < 512 ∨ h < 256)) ∧
    ((loadImageResult r (some (w, h))).2 = LoadOutcome.tooLarge ↔
      ((w > 8192 ∨ h > 4096) ∧ ¬(w < 512 ∨ h < 256))) ∧
    (loadImageResult r (some (511, 300))).2 = LoadOutcome.tooSmall ∧
    (loadImageResult r (some (512, 256))).2 = LoadOutcome.ok ∧
    (loadImageResult r (some (8192, 4096))).2 = LoadOutcome.ok ∧
    (loadImageResult r (some (8193, 4096))).2 = LoadOutcome.tooLarge := by
  refine ⟨?_, ?_, ?_, ?_, ?_, ?_⟩
  · simp only [loadImageResult, CONSTRAINTS.MIN_IMAGE_WIDTH, CONSTRAINTS.MIN_IMAGE_HEIGHT,
      CONSTRAINTS.MAX_IMAGE_WIDTH, CONSTRAINTS.MAX_IMAGE_HEIGHT]
    split_ifs with h1 h2 <;> simp [h1]
  · simp only [loadImageResult, CONSTRAINTS.MIN_IMAGE_WIDTH, CONSTRAINTS.MIN_IMAGE_HEIGHT,
      CONSTRAINTS.MAX_IMAGE_WIDTH, CONSTRAINTS.MAX_IMAGE_HEIGHT]
    split_ifs with h1 h2
    · simp [h1]
    · simp [h1, h2]
    · simp [h1, h2]
  · norm_num [loadImageResult, CONSTRAINTS.MIN_IMAGE_WIDTH, CONSTRAINTS.MIN_IMAGE_HEIGHT]
  · norm_num [loadImageResult, CONSTRAINTS.MIN_IMAGE_WIDTH, CONSTRAINTS.MIN_IMAGE_HEIGHT,
      CONSTRAINTS.MAX_IMAGE_WIDTH, CONSTRAINTS.MAX_IMAGE_HEIGHT]
  · norm_num [loadImageResult, CONSTRAINTS.MIN_IMAGE_WIDTH, CONSTRAINTS.MIN_IMAGE_HEIGHT,
      CONSTRAINTS.MAX_IMAGE_WIDTH, CONSTRAINTS.MAX_IMAGE_HEIGHT]
  · norm_num [loadImageResult, CONSTRAINTS.MIN_IMAGE_WIDTH, CONSTRAINTS.MIN_IMAGE_HEIGHT,
      CONSTRAINTS.MAX_IMAGE_WIDTH, CONSTRAINTS.MAX_IMAGE_HEIGHT]

/-- Per-destination-pixel sampling step of `FishEyePanoramaRenderer.render`:
floor the mapped sample coordinates, wrap X with the JS remainder dance
`((srcX % imageWidth) + imageWidth) % imageWidth` (JS `%` truncates, `Int.tmod`),
clamp Y, then copy the RGB bytes of that source pixel and force alpha 255. -/
noncomputable def renderPixel (source : ℤ → ℕ) (imageWidth imageHeight : ℤ)
    (sampleX sampleY : ℝ) : ℕ × ℕ × ℕ × ℕ :=
  let srcX := ⌊sampleX⌋
  let srcY := ⌊sampleY⌋
  let wrappedSrcX := (srcX.tmod imageWidth + imageWidth).tmod imageWidth
  let wrappedSrcY := max 0 (min (imageHeight - 1) srcY)
  let srcIndex := (wrappedSrcY * imageWidth + wrappedSrcX) * 4
  (source srcIndex, source (srcIndex + 1), source (srcIndex + 2), 255)

/-- The JS double-remainder `((a % n) + n) % n` with truncating `%` equals the
mathematical (euclidean) remainder when `0 < n`. -/
theorem tmod_wrap_eq_emod (a n : ℤ) (hn : 0 < n) : (a.tmod n + n).tmod n = a % n := by
  have hub : a.tmod n < n := Int.tmod_lt_of_pos a hn
  have hneg : -(a.tmod n) = (-a).tmod n := by
    rw [Int.tmod_def, Int.tmod_def, Int.neg_tdiv]
    ring
  have hlb : -n < a.tmod n := by
    have h2 : (-a).tmod n < n := Int.tmod_lt_of_pos (-a) hn
    rw [← hneg] at h2
    linarith
  have hnn : 0 ≤ a.tmod n + n := by linarith
  rw [Int.tmod_eq_emod hnn (le_of_lt hn),
    show a.tmod n + n = a.tmod n + n * 1 by ring, Int.add_mul_emod_self_left]
  conv_rhs => rw [← Int.tdiv_add_tmod a n]
  rw [Int.add_comm, Int.add_mul_emod_self_left]

/-- C5: the rasterizer's per-pixel sampling floors the sample coordinates,
wraps the X index to the euclidean remainder modulo the image width (so X
values `imageWidth·k` apart sample the same column, and the wrapped index lies
in `[0, imageWidth)`), clamps the Y index into `[0, imageHeight-1]` (negative
Y samples row 0, `Y ≥ imageHeight` samples the last row), copies that single
source pixel's RGB and writes alpha 255 regardless of source alpha. -/
theorem renderPixel_sampling (source : ℤ → ℕ) (imageWidth imageHeight : ℤ)
    (hiw : 0 < imageWidth) (hih : 0 < imageHeight) (sampleX sampleY : ℝ) :
    renderPixel source imageWidth imageHeight sampleX sampleY =
      (source ((max 0 (min (imageHeight - 1) ⌊sampleY⌋) * imageWidth + ⌊sampleX⌋ % imageWidth) * 4),
       source ((max 0 (min (imageHeight - 1) ⌊sampleY⌋) * imageWidth + ⌊sampleX⌋ % imageWidth) * 4 + 1),
       source ((max 0 (min (imageHeight - 1) ⌊sampleY⌋) * imageWidth + ⌊sampleX⌋ % imageWidth) * 4 + 2),
       255) ∧
    0 ≤ ⌊sampleX⌋ % imageWidth ∧ ⌊sampleX⌋ % imageWidth < imageWidth ∧
    (∀ k : ℤ, renderPixel source imageWidth imageHeight (sampleX + (imageWidth * k : ℤ)) sampleY =
      renderPixel source imageWidth imageHeight sampleX sampleY) ∧
    (sampleY < 0 → renderPixel source imageWidth imageHeight sampleX sampleY =
      renderPixel source imageWidth imageHeight sampleX 0) ∧
    ((imageHeight : ℝ) ≤ sampleY → renderPixel source imageWidth imageHeight sampleX sampleY =
      renderPixel source imageWidth imageHeight sampleX ((imageHeight : ℝ) - 1)) := by
  refine ⟨?_, Int.emod_nonneg _ (ne_of_gt hiw), Int.emod_lt_of_pos _ hiw, ?_, ?_, ?_⟩
  · simp only [renderPixel]
    rw [tmod_wrap_eq_emod _ _ hiw]
  · intro k
    simp only [renderPixel]
    rw [Int.floor_add_int sampleX (imageWidth * k),
      tmod_wrap_eq_emod _ _ hiw, tmod_wrap_eq_emod _ _ hiw, Int.add_mul_emod_self_left]
  · intro hy
    have hfl : ⌊sampleY⌋ < 0 := Int.floor_lt.mpr (by exact_mod_cast hy)
    simp only [renderPixel]
    rw [show max 0 (min (imageHeight - 1) ⌊sampleY⌋) = max 0 (min (imageHeight - 1) ⌊(0 : ℝ)⌋) by
      rw [Int.floor_zero]; omega]
  · intro hy
    have hfl : imageHeight ≤ ⌊sampleY⌋ := Int.le_floor.mpr hy
    simp only [renderPixel]
    rw [show max 0 (min (imageHeight - 1) ⌊sampleY⌋)
        = max 0 (min (imageHeight - 1) ⌊(imageHeight : ℝ) - 1⌋) by
      rw [show ((imageHeight : ℝ) - 1) = ((imageHeight - 1 : ℤ) : ℝ) by push_cast; ring,
        Int.floor_intCast]
      omega]

/-- The `projectedCorners` local of `LabelRenderer.render`: the label's four
corners `(x,y)`, `(x+w,y)`, `(x,y+h)`, `(x+w,y+h)` pushed through
`projectToViewport`. -/
noncomputable def labelProjectedCorners (lx ly lw lh iw ih w h yaw pitch zoom fov : ℝ)
    (pt : ProjectionType) : List (Option (ℝ × ℝ)) :=
  [((lx, ly) : ℝ × ℝ), (lx + lw, ly), (lx, ly + lh), (lx + lw, ly + lh)].map fun c =>
    projectToViewport c.1 c.2 iw ih w h yaw pitch zoom fov pt

/-- Per-label pass of `LabelRenderer.render`: skip (`none`) when no corner is
visible, otherwise the drawn rectangle `(rectX, rectY, rectW, rectH)` as the
bounding box of the visible corners (`Math.min`/`Math.max` folds) plus whether
the title text is drawn (`label.title && rectW > 50 && rectH > 20`). -/
noncomputable def labelRender (hasTitle : Bool) (lx ly lw lh iw ih w h yaw pitch zoom fov : ℝ)
    (pt : ProjectionType) : Option (ℝ × ℝ × ℝ × ℝ × Bool) :=
  let projectedCorners := labelProjectedCorners lx ly lw lh iw ih w h yaw pitch zoom fov pt
  let visibleCorners := projectedCorners.filterMap id
  match visibleCorners with
  | [] => none
  | v :: vs =>
    let minX := (vs.map Prod.fst).foldl min v.1
    let maxX := (vs.map Prod.fst).foldl max v.1
    let minY := (vs.map Prod.snd).foldl min v.2
    let maxY := (vs.map Prod.snd).foldl max v.2
    some (minX, minY, maxX - minX, maxY - minY,
      hasTitle && decide (50 < maxX - minX) && decide (20 < maxY - minY))

theorem foldl_min_le_init (l : List ℝ) (a : ℝ) : l.foldl min a ≤ a := by
  induction l generalizing a with
  | nil => exact le_refl a
  | cons x t ih => exact le_trans (ih (min a x)) (min_le_left a x)

theorem foldl_min_le_mem (l : List ℝ) (a b : ℝ) (hb : b ∈ l) : l.foldl min a ≤ b := by
  induction l generalizing a with
  | nil => cases hb
  | cons x t ih =>
    rcases List.mem_cons.mp hb with rfl | hmem
    · exact le_trans (foldl_min_le_init t (min a b)) (min_le_right a b)
    · exact ih (min a x) hmem

theorem foldl_min_eq_or (l : List ℝ) (a : ℝ) : l.foldl min a = a ∨ l.foldl min a ∈ l := by
  induction l generalizing a with
  | nil => exact Or.inl rfl
  | cons x t ih =>
    rcases ih (min a x) with he | he
    · rcases min_choice a x with h2 | h2
      · exact Or.inl (by rw [List.foldl_cons, he, h2])
      · exact Or.inr (by rw [List.foldl_cons, he, h2]; exact List.mem_cons_self x t)
    · exact Or.inr (List.mem_cons_of_mem x he)

theorem le_foldl_max_init (l : List ℝ) (a : ℝ) : a ≤ l.foldl max a := by
  induction l generalizing a with
  | nil => exact le_refl a
  | cons x t ih => exact le_trans (le_max_left a x) (ih (max a x))

theorem le_foldl_max_mem (l : List ℝ) (a b : ℝ) (hb : b ∈ l) : b ≤ l.foldl max a := by
  induction l generalizing a with
  | nil => cases hb
  | cons x t ih =>
    rcases List.mem_cons.mp hb with rfl | hmem
    · exact le_trans (le_max_right a b) (le_foldl_max_init t (max a b))
    · exact ih (max a x) hmem

theorem foldl_max_eq_or (l : List ℝ) (a : ℝ) : l.foldl max a = a ∨ l.foldl max a ∈ l := by
  induction l generalizing a with
  | nil => exact Or.inl rfl
  | cons x t ih =>
    rcases ih (max a x) with he | he
    · rcases max_choice a x with h2 | h2
      · exact Or.inl (by rw [List.foldl_cons, he, h2])
      · exact Or.inr (by rw [List.foldl_cons, he, h2]; exact List.mem_cons_self x t)
    · exact Or.inr (List.mem_cons_of_mem x he)

/-- C7: a label is skipped exactly when all four of its projected corners are
not-visible; otherwise the drawn rectangle is the axis-aligned bounding box of
only the visible corners (its left/right/top/bottom edges are attained by
visible corners and every visible corner lies inside it). -/
theorem label_skip_and_bbox (hasTitle : Bool) (lx ly lw lh iw ih w h yaw pitch zoom fov : ℝ)
    (pt : ProjectionType) :
    (labelRender hasTitle lx ly lw lh iw ih w h yaw pitch zoom fov pt = none ↔
      (projectToViewport lx ly iw ih w h yaw pitch zoom fov pt = none ∧
       projectToViewport (lx + lw) ly iw ih w h yaw pitch zoom fov pt = none ∧
       projectToViewport lx (ly + lh) iw ih w h yaw pitch zoom fov pt = none ∧
       projectToViewport (lx + lw) (ly + lh) iw ih w h yaw pitch zoom fov pt = none)) ∧
    (∀ (bx by0 bw bh : ℝ) (tb : Bool),
      labelRender hasTitle lx ly lw lh iw ih w h yaw pitch zoom fov pt = some (bx, by0, bw, bh, tb) →
      ((∃ p : ℝ × ℝ, some p ∈ labelProjectedCorners lx ly lw lh iw ih w h yaw pitch zoom fov pt ∧
          p.1 = bx) ∧
       (∃ p : ℝ × ℝ, some p ∈ labelProjectedCorners lx ly lw lh iw ih w h yaw pitch zoom fov pt ∧
          p.1 = bx + bw) ∧
       (∃ p : ℝ × ℝ, some p ∈ labelProjectedCorners lx ly lw lh iw ih w h yaw pitch zoom fov pt ∧
          p.2 = by0) ∧
       (∃ p : ℝ × ℝ, some p ∈ labelProjectedCorners lx ly lw lh iw ih w h yaw pitch zoom fov pt ∧
          p.2 = by0 + bh) ∧
       ∀ p : ℝ × ℝ, some p ∈ labelProjectedCorners lx ly lw lh iw ih w h yaw pitch zoom fov pt →
         bx ≤ p.1 ∧ p.1 ≤ bx + bw ∧ by0 ≤ p.2 ∧ p.2 ≤ by0 + bh)) := by
  have hL : labelProjectedCorners lx ly lw lh iw ih w h yaw pitch zoom fov pt =
      [projectToViewport lx ly iw ih w h yaw pitch zoom fov pt,
       projectToViewport (lx + lw) ly iw ih w h yaw pitch zoom fov pt,
       projectToViewport lx (ly + lh) iw ih w h yaw pitch zoom fov pt,
       projectToViewport (lx + lw) (ly + lh) iw ih w h yaw pitch zoom fov pt] := rfl
  have hmem : ∀ p : ℝ × ℝ,
      (some p ∈ labelProjectedCorners lx ly lw lh iw ih w h yaw pitch zoom fov pt ↔
       p ∈ (labelProjectedCorners lx ly lw lh iw ih w h yaw pitch zoom fov pt).filterMap id) := by
    intro p
    rw [List.mem_filterMap]
    constructor
    · intro hp
      exact ⟨some p, hp, rfl⟩
    · rintro ⟨a, ha, hae⟩
      rw [show id a = a from rfl] at hae
      rwa [hae] at ha
  constructor
  · cases hV : (labelProjectedCorners lx ly lw lh iw ih w h yaw pitch zoom fov pt).filterMap id with
    | nil =>
      have hall := List.filterMap_eq_nil_iff.mp hV
      rw [hL] at hall
      constructor
      · intro _
        exact ⟨hall _ (List.mem_cons_self _ _),
          hall _ (List.mem_cons_of_mem _ (List.mem_cons_self _ _)),
          hall _ (List.mem_cons_of_mem _ (List.mem_cons_of_mem _ (List.mem_cons_self _ _))),
          hall _ (List.mem_cons_of_mem _ (List.mem_cons_of_mem _
            (List.mem_cons_of_mem _ (List.mem_cons_self _ _))))⟩
      · intro _
        simp only [labelRender]
        rw [hV]
    | cons v vs =>
      constructor
      · intro hc
        simp only [labelRender] at hc
        rw [hV] at hc
        cases hc
      · intro hc4
        have hnil : (labelProjectedCorners lx ly lw lh iw ih w h yaw pitch zoom fov pt).filterMap id
            = [] := by
          rw [hL, hc4.1, hc4.2.1, hc4.2.2.1, hc4.2.2.2]
          rfl
        rw [hV] at hnil
        cases hnil
  · intro bx by0 bw bh tb hsome
    simp only [labelRender] at hsome
    cases hV : (labelProjectedCorners lx ly lw lh iw ih w h yaw pitch zoom fov pt).filterMap id with
    | nil =>
      rw [hV] at hsome
      cases hsome
    | cons v vs =>
      rw [hV] at hsome
      simp only [Option.some.injEq, Prod.mk.injEq] at hsome
      obtain ⟨hbx, hby, hbw, hbh, -⟩ := hsome
      have hvmem : ∀ p : ℝ × ℝ,
          some p ∈ labelProjectedCorners lx ly lw lh iw ih w h yaw pitch zoom fov pt ↔
          p ∈ v :: vs := by
        intro p
        rw [hmem p, hV]
      refine ⟨?_, ?_, ?_, ?_, ?_⟩
      · rcases foldl_min_eq_or (vs.map Prod.fst) v.1 with he | he
        · exact ⟨v, (hvmem v).mpr (List.mem_cons_self v vs), by rw [← hbx, he]⟩
        · rcases List.mem_map.mp he with ⟨u, hu, hue⟩
          exact ⟨u, (hvmem u).mpr (List.mem_cons_of_mem v hu), by rw [← hbx, hue]⟩
      · rcases foldl_max_eq_or (vs.map Prod.fst) v.1 with he | he
        · exact ⟨v, (hvmem v).mpr (List.mem_cons_self v vs), by rw [← hbx, ← hbw, he]; ring⟩
        · rcases List.mem_map.mp he with ⟨u, hu, hue⟩
          exact ⟨u, (hvmem u).mpr (List.mem_cons_of_mem v hu), by rw [← hbx, ← hbw, hue]; ring⟩
      · rcases foldl_min_eq_or (vs.map Prod.snd) v.2 with he | he
        · exact ⟨v, (hvmem v).mpr (List.mem_cons_self v vs), by rw [← hby, he]⟩
        · rcases List.mem_map.mp he with ⟨u, hu, hue⟩
          exact ⟨u, (hvmem u).mpr (List.mem_cons_of_mem v hu), by rw [← hby, hue]⟩
      · rcases foldl_max_eq_or (vs.map Prod.snd) v.2 with he | he
        · exact ⟨v, (hvmem v).mpr (List.mem_cons_self v vs), by rw [← hby, ← hbh, he]; ring⟩
        · rcases List.mem_map.mp he with ⟨u, hu, hue⟩
          exact ⟨u, (hvmem u).mpr (List.mem_cons_of_mem v hu), by rw [← hby, ← hbh, hue]; ring⟩
      · intro p hp
        have hpv := (hvmem p).mp hp
        rcases List.mem_cons.mp hpv with rfl | hvs
        · refine ⟨?_, ?_, ?_, ?_⟩
          · rw [← hbx]
            exact foldl_min_le_init _ _
          · rw [← hbx, ← hbw]
            have := le_foldl_max_init (vs.map Prod.fst) p.1
            linarith
          · rw [← hby]
            exact foldl_min_le_init _ _
          · rw [← hby, ← hbh]
            have := le_foldl_max_init (vs.map Prod.snd) p.2
            linarith
        · refine ⟨?_, ?_, ?_, ?_⟩
          · rw [← hbx]
            exact foldl_min_le_mem _ _ _ (List.mem_map_of_mem Prod.fst hvs)
          · rw [← hbx, ← hbw]
            have := le_foldl_max_mem (vs.map Prod.fst) v.1 p.1 (List.mem_map_of_mem Prod.fst hvs)
            linarith
          · rw [← hby]
            exact foldl_min_le_mem _ _ _ (List.mem_map_of_mem Prod.snd hvs)
          · rw [← hby, ← hbh]
            have := le_foldl_max_mem (vs.map Prod.snd) v.2 p.2 (List.mem_map_of_mem Prod.snd hvs)
            linarith

/-- C8 (amended): for a drawn label, the title text is drawn exactly when the
label has a title and the bounding box is strictly larger than 50×20 viewport
pixels (`rectW > 50` and `rectH > 20`, strict); at-threshold boxes render as
bare rectangles. -/
theorem label_title_threshold (hasTitle : Bool) (lx ly lw lh iw ih w h yaw pitch zoom fov : ℝ)
    (pt : ProjectionType) (bx by0 bw bh : ℝ) (tb : Bool) :
    labelRender hasTitle lx ly lw lh iw ih w h yaw pitch zoom fov pt = some (bx, by0, bw, bh, tb) →
    (tb = true ↔ (hasTitle = true ∧ 50 < bw ∧ 20 < bh)) := by
  intro hsome
  simp only [labelRender] at hsome
  cases hV : (labelProjectedCorners lx ly lw lh iw ih w h yaw pitch zoom fov pt).filterMap id with
  | nil =>
    rw [hV] at hsome
    cases hsome
  | cons v vs =>
    rw [hV] at hsome
    simp only [Option.some.injEq, Prod.mk.injEq] at hsome
    obtain ⟨-, -, hbw, hbh, htb⟩ := hsome
    rw [← htb, ← hbw, ← hbh]
    simp [Bool.and_eq_true, decide_eq_true_iff, and_assoc]

/-- With `fov = √2` and aspect ratio 1 the equidistant inverse mapping is
exactly doubling, away from its degenerate center. -/
theorem equidistant_inverse_sqrt_two (theta phi : ℝ)
    (hge : (0.0001 : ℝ) ≤ Real.sqrt (theta * theta + phi * phi)) :
    EquidistantProjection.anglesToViewport theta phi (Real.sqrt 2) 1 = (2 * theta, 2 * phi) := by
  simp only [EquidistantProjection.anglesToViewport]
  rw [if_neg (not_lt.mpr hge)]
  have hang : (0 : ℝ) < Real.sqrt (theta * theta + phi * phi) :=
    lt_of_lt_of_le (by norm_num) hge
  have hangne : Real.sqrt (theta * theta + phi * phi) ≠ 0 := ne_of_gt hang
  rw [show ((1 : ℝ) * 1 + 1) = 2 by norm_num]
  have hs2 : Real.sqrt 2 ≠ 0 := by positivity
  simp only [Prod.mk.injEq]
  constructor
  · field_simp
    ring
  · field_simp
    ring

/-- Projection of a label corner under the concrete camera
(image 1000×500, viewport 200×200, yaw `-1/10`, pitch 0, zoom 1, `fov = √2`,
equidistant): the pixel is `((2θ+1)·100, (2φ+1)·100)`. -/
theorem pv_label_corner (sX sY theta phi : ℝ)
    (hth : normalizeAngle (sX / 1000 * (2 * Real.pi) - Real.pi - -(1 / 10)) = theta)
    (hph : sY / 500 * Real.pi - Real.pi / 2 - 0 = phi)
    (hge : (0.0001 : ℝ) ≤ Real.sqrt (theta * theta + phi * phi))
    (hgx : |2 * theta| ≤ 1.2) (hgy : |2 * phi| ≤ 1.2) :
    projectToViewport sX sY 1000 500 200 200 (-(1 / 10)) 0 1 (Real.sqrt 2) .equidistant
      = some ((2 * theta * 1 + 1) / 2 * 200, (2 * phi * 1 + 1) / 2 * 200) := by
  have hnc : viewportNormCoords sX sY 1000 500 200 200 (-(1 / 10)) 0 (Real.sqrt 2) .equidistant
      = (2 * theta, 2 * phi) := by
    simp only [viewportNormCoords]
    rw [hth, hph, show (200 : ℝ) / 200 = 1 by norm_num]
    simp only [anglesToViewport]
    exact equidistant_inverse_sqrt_two theta phi hge
  have hax := abs_le.mp hgx
  have hay := abs_le.mp hgy
  simp only [projectToViewport, hnc]
  rw [if_neg (by push_neg; exact ⟨hgx, hgy⟩), if_neg (by push_neg; norm_num; constructor <;> [linarith [hax.1]; constructor <;> [linarith [hax.2]; constructor <;> [linarith [hay.1]; linarith [hay.2]]]])]

/-- Corner `(500, 250)` projects to pixel `(120, 100)` under that camera. -/
theorem pv_corner_base :
    projectToViewport 500 250 1000 500 200 200 (-(1 / 10)) 0 1 (Real.sqrt 2) .equidistant
      = some (120, 100) := by
  have hth : normalizeAngle ((500 : ℝ) / 1000 * (2 * Real.pi) - Real.pi - -(1 / 10)) = 1 / 10 := by
    rw [show (500 : ℝ) / 1000 * (2 * Real.pi) - Real.pi - -(1 / 10) = 1 / 10 by ring]
    exact normalizeAngle_eq_self (by linarith [Real.pi_gt_three]) (by linarith [Real.pi_gt_three])
  have hph : (250 : ℝ) / 500 * Real.pi - Real.pi / 2 - 0 = 0 := by ring
  have hge : (0.0001 : ℝ) ≤ Real.sqrt ((1 / 10 : ℝ) * (1 / 10) + 0 * 0) :=
    (Real.le_sqrt' (by norm_num)).mpr (by norm_num)
  have h := pv_label_corner 500 250 (1 / 10) 0 hth hph hge
    (by rw [abs_le]; constructor <;> norm_num) (by rw [abs_le]; constructor <;> norm_num)
  rw [h]
  norm_num

/-- Corner `(500 + 125/π, 250)` projects to pixel `(170, 100)`. -/
theorem pv_corner_right :
    projectToViewport (500 + 125 / Real.pi) 250 1000 500 200 200 (-(1 / 10)) 0 1 (Real.sqrt 2)
      .equidistant = some (170, 100) := by
  have hpi := Real.pi_ne_zero
  have hth : normalizeAngle ((500 + 125 / Real.pi) / 1000 * (2 * Real.pi) - Real.pi - -(1 / 10))
      = 7 / 20 := by
    rw [show (500 + 125 / Real.pi) / 1000 * (2 * Real.pi) - Real.pi - -(1 / 10) = 7 / 20 by
      field_simp
      ring]
    exact normalizeAngle_eq_self (by linarith [Real.pi_gt_three]) (by linarith [Real.pi_gt_three])
  have hph : (250 : ℝ) / 500 * Real.pi - Real.pi / 2 - 0 = 0 := by ring
  have hge : (0.0001 : ℝ) ≤ Real.sqrt ((7 / 20 : ℝ) * (7 / 20) + 0 * 0) :=
    (Real.le_sqrt' (by norm_num)).mpr (by norm_num)
  have h := pv_label_corner (500 + 125 / Real.pi) 250 (7 / 20) 0 hth hph hge
    (by rw [abs_le]; constructor <;> norm_num) (by rw [abs_le]; constructor <;> norm_num)
  rw [h]
  norm_num

/-- Corner `(500, 250 + 75/π)` projects to pixel `(120, 130)`. -/
theorem pv_corner_down :
    projectToViewport 500 (250 + 75 / Real.pi) 1000 500 200 200 (-(1 / 10)) 0 1 (Real.sqrt 2)
      .equidistant = some (120, 130) := by
  have hpi := Real.pi_ne_zero
  have hth : normalizeAngle ((500 : ℝ) / 1000 * (2 * Real.pi) - Real.pi - -(1 / 10)) = 1 / 10 := by
    rw [show (500 : ℝ) / 1000 * (2 * Real.pi) - Real.pi - -(1 / 10) = 1 / 10 by ring]
    exact normalizeAngle_eq_self (by linarith [Real.pi_gt_three]) (by linarith [Real.pi_gt_three])
  have hph : (250 + 75 / Real.pi) / 500 * Real.pi - Real.pi / 2 - 0 = 3 / 20 := by
    field_simp
    ring
  have hge : (0.0001 : ℝ) ≤ Real.sqrt ((1 / 10 : ℝ) * (1 / 10) + (3 / 20) * (3 / 20)) :=
    (Real.le_sqrt' (by norm_num)).mpr (by norm_num)
  have h := pv_label_corner 500 (250 + 75 / Real.pi) (1 / 10) (3 / 20) hth hph hge
    (by rw [abs_le]; constructor <;> norm_num) (by rw [abs_le]; constructor <;> norm_num)
  rw [h]
  norm_num

/-- Corner `(500 + 125/π, 250 + 75/π)` projects to pixel `(170, 130)`. -/
theorem pv_corner_diag :
    projectToViewport (500 + 125 / Real.pi) (250 + 75 / Real.pi) 1000 500 200 200 (-(1 / 10)) 0 1
      (Real.sqrt 2) .equidistant = some (170, 130) := by
  have hpi := Real.pi_ne_zero
  have hth : normalizeAngle ((500 + 125 / Real.pi) / 1000 * (2 * Real.pi) - Real.pi - -(1 / 10))
      = 7 / 20 := by
    rw [show (500 + 125 / Real.pi) / 1000 * (2 * Real.pi) - Real.pi - -(1 / 10) = 7 / 20 by
      field_simp
      ring]
    exact normalizeAngle_eq_self (by linarith [Real.pi_gt_three]) (by linarith [Real.pi_gt_three])
  have hph : (250 + 75 / Real.pi) / 500 * Real.pi - Real.pi / 2 - 0 = 3 / 20 := by
    field_simp
    ring
  have hge : (0.0001 : ℝ) ≤ Real.sqrt ((7 / 20 : ℝ) * (7 / 20) + (3 / 20) * (3 / 20)) :=
    (Real.le_sqrt' (by norm_num)).mpr (by norm_num)
  have h := pv_label_corner (500 + 125 / Real.pi) (250 + 75 / Real.pi) (7 / 20) (3 / 20) hth hph hge
    (by rw [abs_le]; constructor <;> norm_num) (by rw [abs_le]; constructor <;> norm_num)
  rw [h]
  norm_num

/-- When the filtered visible-corner list is a cons, `labelRender` returns the
min/max-fold bounding box and the title flag. -/
theorem labelRender_cons (hasTitle : Bool) (lx ly lw lh iw ih w h yaw pitch zoom fov : ℝ)
    (pt : ProjectionType) (v : ℝ × ℝ) (vs : List (ℝ × ℝ))
    (hV : (labelProjectedCorners lx ly lw lh iw ih w h yaw pitch zoom fov pt).filterMap id
      = v :: vs) :
    labelRender hasTitle lx ly lw lh iw ih w h yaw pitch zoom fov pt =
      some ((vs.map Prod.fst).foldl min v.1, (vs.map Prod.snd).foldl min v.2,
        (vs.map Prod.fst).foldl max v.1 - (vs.map Prod.fst).foldl min v.1,
        (vs.map Prod.snd).foldl max v.2 - (vs.map Prod.snd).foldl min v.2,
        hasTitle && decide (50 < (vs.map Prod.fst).foldl max v.1 - (vs.map Prod.fst).foldl min v.1)
          && decide (20 < (vs.map Prod.snd).foldl max v.2 - (vs.map Prod.snd).foldl min v.2)) := by
  simp only [labelRender]
  rw [hV]

/-- Full per-label evaluation at a label whose projected bbox is exactly
50×30 viewport pixels: the title flag comes out `false`. -/
theorem labelRender_exact_fifty :
    labelRender true 500 250 (125 / Real.pi) (75 / Real.pi) 1000 500 200 200 (-(1 / 10)) 0 1
      (Real.sqrt 2) .equidistant = some (120, 100, 50, 30, false) := by
  have hL : labelProjectedCorners 500 250 (125 / Real.pi) (75 / Real.pi) 1000 500 200 200
      (-(1 / 10)) 0 1 (Real.sqrt 2) .equidistant
      = [some (120, 100), some (170, 100), some (120, 130), some (170, 130)] := by
    rw [show labelProjectedCorners 500 250 (125 / Real.pi) (75 / Real.pi) 1000 500 200 200
        (-(1 / 10)) 0 1 (Real.sqrt 2) .equidistant
        = [projectToViewport 500 250 1000 500 200 200 (-(1 / 10)) 0 1 (Real.sqrt 2) .equidistant,
           projectToViewport (500 + 125 / Real.pi) 250 1000 500 200 200 (-(1 / 10)) 0 1
             (Real.sqrt 2) .equidistant,
           projectToViewport 500 (250 + 75 / Real.pi) 1000 500 200 200 (-(1 / 10)) 0 1
             (Real.sqrt 2) .equidistant,
           projectToViewport (500 + 125 / Real.pi) (250 + 75 / Real.pi) 1000 500 200 200
             (-(1 / 10)) 0 1 (Real.sqrt 2) .equidistant] from rfl,
      pv_corner_base, pv_corner_right, pv_corner_down, pv_corner_diag]
  have hV : (labelProjectedCorners 500 250 (125 / Real.pi) (75 / Real.pi) 1000 500 200 200
      (-(1 / 10)) 0 1 (Real.sqrt 2) .equidistant).filterMap id
      = ((120 : ℝ), (100 : ℝ)) :: [(((170 : ℝ), (100 : ℝ)) : ℝ × ℝ), (120, 130), (170, 130)] := by
    rw [hL]
    rfl
  rw [labelRender_cons true 500 250 (125 / Real.pi) (75 / Real.pi) 1000 500 200 200
    (-(1 / 10)) 0 1 (Real.sqrt 2) .equidistant _ _ hV]
  simp only [Option.some.injEq, Prod.mk.injEq]
  norm_num [List.map_cons, List.map_nil, List.foldl_cons, List.foldl_nil, min_def, max_def]

/-- C8 counterexample: a titled label drawn with a bounding box of exactly
50×30 viewport pixels satisfies the claim's "at least 50×20" condition
(`50 ≥ 50` and `30 ≥ 20`), yet the code does not draw the title (its
comparison `rectW > 50` is strict), so "if and only if bbox width ≥ 50 and
bbox height ≥ 20" is false as stated. -/
theorem label_title_at_threshold_counterexample :
    labelRender true 500 250 (125 / Real.pi) (75 / Real.pi) 1000 500 200 200 (-(1 / 10)) 0 1
      (Real.sqrt 2) .equidistant = some (120, 100, 50, 30, false) ∧
    (50 : ℝ) ≥ 50 ∧ (30 : ℝ) ≥ 20 ∧ false ≠ true :=
  ⟨labelRender_exact_fifty, le_refl 50, by norm_num, by simp⟩

/-- The image-center source pixel projects to the viewport center under the
identity camera (yaw 0, pitch 0, zoom 1) on a 200×200 viewport. -/
theorem pv_center :
    projectToViewport 500 250 1000 500 200 200 0 0 1 1 .equidistant = some (100, 100) := by
  have hnc : viewportNormCoords 500 250 1000 500 200 200 0 0 1 .equidistant = (0, 0) := by
    simp only [viewportNormCoords]
    rw [show (500 : ℝ) / 1000 * (2 * Real.pi) - Real.pi - 0 = 0 by ring,
      normalizeAngle_eq_self (by linarith [Real.pi_pos]) (le_of_lt Real.pi_pos),
      show (250 : ℝ) / 500 * Real.pi - Real.pi / 2 - 0 = 0 by ring]
    simp only [anglesToViewport, EquidistantProjection.anglesToViewport]
    rw [show (0 : ℝ) * 0 + 0 * 0 = 0 by ring, Real.sqrt_zero, if_pos (by norm_num)]
  simp only [projectToViewport, hnc]
  norm_num

/-- All four corners of a zero-size label at the image center project to the
viewport center. -/
theorem labelProjectedCorners_center :
    labelProjectedCorners 500 250 0 0 1000 500 200 200 0 0 1 1 .equidistant
      = [some (100, 100), some (100, 100), some (100, 100), some (100, 100)] := by
  rw [show labelProjectedCorners 500 250 0 0 1000 500 200 200 0 0 1 1 .equidistant
      = [projectToViewport 500 250 1000 500 200 200 0 0 1 1 .equidistant,
         projectToViewport (500 + 0) 250 1000 500 200 200 0 0 1 1 .equidistant,
         projectToViewport 500 (250 + 0) 1000 500 200 200 0 0 1 1 .equidistant,
         projectToViewport (500 + 0) (250 + 0) 1000 500 200 200 0 0 1 1 .equidistant] from rfl,
    show ((500 : ℝ) + 0) = 500 by norm_num, show ((250 : ℝ) + 0) = 250 by norm_num, pv_center]

/-- Full per-label evaluation of the zero-size center label: a degenerate
bounding box at the viewport center, no title drawn. -/
theorem labelRender_center_eval :
    labelRender true 500 250 0 0 1000 500 200 200 0 0 1 1 .equidistant
      = some (100, 100, 0, 0, false) := by
  have hV : (labelProjectedCorners 500 250 0 0 1000 500 200 200 0 0 1 1
      .equidistant).filterMap id
      = ((100 : ℝ), (100 : ℝ)) :: [(((100 : ℝ), (100 : ℝ)) : ℝ × ℝ), (100, 100), (100, 100)] := by
    rw [labelProjectedCorners_center]
    rfl
  rw [labelRender_cons true 500 250 0 0 1000 500 200 200 0 0 1 1 .equidistant _ _ hV]
  simp only [Option.some.injEq, Prod.mk.injEq]
  norm_num [List.map_cons, List.map_nil, List.foldl_cons, List.foldl_nil, min_def, max_def]

/-- Witness for C4 at a concrete input: the center projection is accepted by
both gates and its pixel lies inside the padded viewport rectangle. -/
theorem projectToViewport_visibility_gates_witness :
    (-100 : ℝ) ≤ ((100 : ℝ), (100 : ℝ)).1 ∧ ((100 : ℝ), (100 : ℝ)).1 ≤ 200 + 100 ∧
    (-100 : ℝ) ≤ ((100 : ℝ), (100 : ℝ)).2 ∧ ((100 : ℝ), (100 : ℝ)).2 ≤ 200 + 100 :=
  (projectToViewport_visibility_gates 500 250 1000 500 200 200 0 0 1 1 .equidistant).2
    (100, 100) pv_center

/-- Witness for C5 at a concrete input: on a 4×3 image, sample X values 4
apart hit the same pixel. -/
theorem renderPixel_sampling_witness :
    (0 : ℤ) < 4 ∧ (0 : ℤ) < 3 ∧
    renderPixel (fun i => i.toNat) 4 3 ((2 : ℝ) + ((4 * 1 : ℤ) : ℝ)) 5
      = renderPixel (fun i => i.toNat) 4 3 2 5 :=
  ⟨by norm_num, by norm_num,
    (renderPixel_sampling (fun i => i.toNat) 4 3 (by norm_num) (by norm_num) 2 5).2.2.2.1 1⟩

/-- Witness for C7 at a concrete input: the center corner is a visible corner
and lies inside the returned bounding box. -/
theorem label_skip_and_bbox_witness :
    (100 : ℝ) ≤ ((100 : ℝ), (100 : ℝ)).1 ∧ ((100 : ℝ), (100 : ℝ)).1 ≤ 100 + 0 ∧
    (100 : ℝ) ≤ ((100 : ℝ), (100 : ℝ)).2 ∧ ((100 : ℝ), (100 : ℝ)).2 ≤ 100 + 0 := by
  have h := (label_skip_and_bbox true 500 250 0 0 1000 500 200 200 0 0 1 1 .equidistant).2
    100 100 0 0 false labelRender_center_eval
  refine h.2.2.2.2 (100, 100) ?_
  rw [labelProjectedCorners_center]
  exact List.mem_cons_self _ _

/-- Witness for C8 (amended) at a concrete input: the degenerate center label
is drawn with a 0×0 box and no title, matching the strict threshold. -/
theorem label_title_threshold_witness :
    (false = true ↔ (true = true ∧ (50 : ℝ) < 0 ∧ (20 : ℝ) < 0)) :=
  label_title_threshold true 500 250 0 0 1000 500 200 200 0 0 1 1 .equidistant 100 100 0 0 false
    labelRender_center_eval

/-- Witness for C9 at concrete inputs: a too-small resize and a too-small
image load both fail and leave the example state untouched. -/
theorem mutation_errors_witness :
    ((resize exampleState 50 500).2.isSome ∧ (resize exampleState 50 500).1 = exampleState) ∧
    ((loadImageResult exampleState (some (100, 5000))).2 ≠ LoadOutcome.ok ∧
      (loadImageResult exampleState (some (100, 5000))).1 = exampleState) := by
  have h := mutation_errors_leave_state_unchanged exampleState
  have h1 : (resize exampleState 50 500).2.isSome := by
    norm_num [resize, CONSTRAINTS.MIN_CANVAS_SIZE]
  have h2 : (loadImageResult exampleState (some (100, 5000))).2 ≠ LoadOutcome.ok := by
    have hsm : (loadImageResult exampleState (some (100, 5000))).2 = LoadOutcome.tooSmall := by
      norm_num [loadImageResult, CONSTRAINTS.MIN_IMAGE_WIDTH, CONSTRAINTS.MIN_IMAGE_HEIGHT]
    rw [hsm]
    exact fun hc => LoadOutcome.noConfusion hc
  exact ⟨⟨h1, h.1 50 500 h1⟩, ⟨h2, h.2 (some (100, 5000)) h2⟩⟩

/-- A renderer state in mid-drag (yaw 10, pitch 0, zoom 1, dragging). -/
noncomputable def dragExampleState : RendererState :=
  ⟨⟨10, 0, 1, true⟩, none, none, 800, 600, true⟩

/-- Witness for C10 at a concrete input: during a drag with sensitivity 1 a
`(1, 1)` pointer delta moves yaw from 10 to 9 and pitch from 0 to -1. -/
theorem drag_uniform_witness :
    getDragVelocity ProjectionType.stereographic 0 0 1 = (1, 1) ∧
    (handleMouseMove ProjectionType.stereographic 1 dragExampleState 1 1).state.yaw
      = dragExampleState.state.yaw - 1 * 1 ∧
    (handleMouseMove ProjectionType.stereographic 1 dragExampleState 1 1).state.pitch
      = dragExampleState.state.pitch - 1 * 1 := by
  have h := drag_uniform_across_projections 1 ProjectionType.stereographic
  have h2 := h.2 dragExampleState 1 1 rfl (by norm_num [dragExampleState])
    (by norm_num [dragExampleState]) (by norm_num [dragExampleState])
    (by norm_num [dragExampleState])
  exact ⟨h.1, h2.1, h2.2.1⟩

end FullViewer
